import Mathlib

/-!
Verification of the Block/SimpleBlock binary codec of the `webm-iterable`
repository.  The SimpleBlock coercions (`SimpleBlock::try_from` and
`SimpleBlock::into` in `src/matroska_spec/simple_block.rs`) are embedded
directly from the source.  The `Block` codec, the `WebmError` type and the
external `ebml_iterable` helpers (`TagData`, `read_vint`, `write_vint`) are
not part of the provided sources; they are modelled from the specification
(sections 3, 4.1, 6 and 7) and each such definition is marked below.
-/

namespace Webm

/-- Modelled from the spec: the `TagData` representation of the external
`ebml_iterable` crate (spec section 6).  A Block/SimpleBlock payload arrives
as binary element content; other representations (string, unsigned integer,
signed integer) exist and must be rejected by the coercions.  Bytes are
modelled as natural numbers (a well-formed buffer has every entry below
256). -/
inductive TagData where
  | unsignedInt (v : Nat)
  | integer (v : Int)
  | utf8 (v : String)
  | binary (d : List Nat)
deriving DecidableEq

def msgSimpleBlockTrack : String := "Unable to read track data in SimpleBlock."

def msgSimpleBlockNonBinary : String := "Expected binary tag type for SimpleBlock tag, but received a different type!"

def msgBlockTrack : String := "Unable to read track data in Block."

def msgBlockShort : String := "Buffer too short for Block timecode and flags."

def msgBlockNonBinary : String := "Expected binary tag type for Block tag, but received a different type!"

/-- Modelled from the spec: the error type of `src/errors.rs` (not among the
provided sources).  `SimpleBlockCoercionError` is the variant used by
`simple_block.rs`; `BlockCoercionError` is the corresponding variant used by
the Block codec (spec section 7: VintReadError / TypeMismatch equivalents are
surfaced through these coercion errors). -/
inductive WebmError where
  | simpleBlockCoercionError (message : String)
  | blockCoercionError (message : String)
deriving DecidableEq

/-- Modelled from the spec: lacing modes of a Block (spec section 3). -/
inductive BlockLacing where
  | xiph
  | ebml
  | fixedSize
deriving DecidableEq

/-- Modelled from the spec: the `Block` struct of `src/matroska_spec/block.rs`
(not among the provided sources): track number, signed 16-bit relative
timecode, invisible flag, optional lacing, and the opaque payload bytes that
follow the flags byte (spec sections 3 and 6). -/
structure Block where
  payload : List Nat
  track : Nat
  value : Int
  invisible : Bool
  lacing : Option BlockLacing
deriving DecidableEq

/-- The `SimpleBlock` struct from `src/matroska_spec/simple_block.rs`:
an embedded `Block` plus the discardable and keyframe flags. -/
structure SimpleBlock where
  block : Block
  discardable : Bool
  keyframe : Bool
deriving DecidableEq

/-- Modelled from the spec: the encoded length of an EBML vint whose first
byte is `b0`, i.e. the number of leading zero bits of the byte plus one
(spec glossary: leading bits of the first byte indicate the total encoded
length).  A zero first byte would demand a length of 9, beyond the 8-byte
maximum; `read_vint` rejects it before using this value. -/
def vintLengthOf (b0 : Nat) : Nat :=
  if 128 ≤ b0 then 1
  else if 64 ≤ b0 then 2
  else if 32 ≤ b0 then 3
  else if 16 ≤ b0 then 4
  else if 8 ≤ b0 then 5
  else if 4 ≤ b0 then 6
  else if 2 ≤ b0 then 7
  else 8

/-- Modelled from the spec: `ebml_iterable::tools::read_vint` (spec sections
4.1 and 6).  Reads an EBML variable-length integer from the front of the
buffer, returning the decoded value together with its encoded byte length.
`Except.error` marks a malformed vint (first byte zero, meaning a length
beyond 8 bytes); `Except.ok none` marks a buffer exhausted before the vint is
complete.  The marker bit is removed from the first byte and the remaining
`length - 1` bytes extend the value big-endian. -/
def read_vint (data : List Nat) : Except Unit (Option (Nat × Nat)) :=
  match data with
  | [] => Except.ok none
  | b0 :: tl =>
    if b0 = 0 then Except.error ()
    else if tl.length + 1 < vintLengthOf b0 then Except.ok none
    else
      Except.ok (some ((tl.take (vintLengthOf b0 - 1)).foldl
        (fun acc b => acc * 256 + b) (b0 % 2 ^ (8 - vintLengthOf b0)), vintLengthOf b0))

/-- Modelled from the spec: the minimal EBML vint byte length able to hold a
track value (spec section 4.1: fresh encoding uses the canonical
minimal-length vint; each byte contributes 7 value bits). -/
def vintLen (t : Nat) : Nat :=
  if t < 128 then 1
  else if t < 16384 then 2
  else if t < 2097152 then 3
  else if t < 268435456 then 4
  else if t < 34359738368 then 5
  else if t < 4398046511104 then 6
  else if t < 562949953421312 then 7
  else 8

/-- Big-endian byte expansion of `n` over exactly `l` bytes. -/
def bytesBE : Nat → Nat → List Nat
  | 0, _ => []
  | l + 1, n => n / 256 ^ l :: bytesBE l (n % 256 ^ l)

/-- Modelled from the spec: `ebml_iterable::tools::write_vint` (spec section
4.1).  Encodes `t` as a minimal-length EBML vint: the marker bit `2 ^ (7 * l)`
is added and the result is laid out big-endian over `l` bytes. -/
def write_vint (t : Nat) : List Nat :=
  bytesBE (vintLen t) (t + 2 ^ (7 * vintLen t))

/-- Modelled from the spec: `Block::try_from(TagData)` of the absent
`src/matroska_spec/block.rs` (spec section 4.1).  Reads the leading vint as
the track number, the next two bytes as a big-endian signed 16-bit timecode,
then the flags byte: invisible is bit 3 (0x08), lacing is bits 1-2 (0x06)
with 00 = none, 01 = Xiph, 10 = fixed-size, 11 = EBML.  The remaining bytes
are the opaque payload.  Geometry violations surface as coercion errors
(spec section 7). -/
def blockTryFrom (value : TagData) : Except WebmError Block :=
  match value with
  | TagData.binary data =>
    match read_vint data with
    | Except.error _ => Except.error (WebmError.blockCoercionError msgBlockTrack)
    | Except.ok none => Except.error (WebmError.blockCoercionError msgBlockTrack)
    | Except.ok (some (track, track_size)) =>
      match data[track_size]?, data[track_size + 1]?, data[track_size + 2]? with
      | some b0, some b1, some flags =>
        let raw := b0 * 256 + b1
        let value : Int := if raw < 32768 then (raw : Int) else (raw : Int) - 65536
        let invisible := decide (flags &&& 0x08 = 0x08)
        let lacing : Option BlockLacing :=
          if flags &&& 0x06 = 0x06 then some BlockLacing.ebml
          else if flags &&& 0x06 = 0x04 then some BlockLacing.fixedSize
          else if flags &&& 0x06 = 0x02 then some BlockLacing.xiph
          else none
        Except.ok { payload := data.drop (track_size + 3), track := track,
                    value := value, invisible := invisible, lacing := lacing }
      | _, _, _ => Except.error (WebmError.blockCoercionError msgBlockShort)
  | _ => Except.error (WebmError.blockCoercionError msgBlockNonBinary)

/-- Modelled from the spec: the two lacing bits written into the flags byte
(spec section 4.1): 00 = none, 01 = Xiph, 10 = fixed-size, 11 = EBML, held in
bits 1-2. -/
def lacBits : Option BlockLacing → Nat
  | none => 0
  | some BlockLacing.xiph => 0x02
  | some BlockLacing.fixedSize => 0x04
  | some BlockLacing.ebml => 0x06

/-- Modelled from the spec: the flags byte written by the Block encoder
(spec section 4.1): bits 1-2 per the lacing mode, bit 3 per invisible, all
other bits zero. -/
def blockFlags (b : Block) : Nat :=
  (if b.invisible then 0x08 else 0) ||| lacBits b.lacing

/-- High byte of the big-endian two's-complement 16-bit timecode. -/
def timecodeHi (v : Int) : Nat := (v % 65536).toNat / 256

/-- Low byte of the big-endian two's-complement 16-bit timecode. -/
def timecodeLo (v : Int) : Nat := (v % 65536).toNat % 256

/-- Modelled from the spec: `Block::into(TagData)` of the absent
`src/matroska_spec/block.rs` (spec section 4.1).  Emits the minimal vint for
the track, the two big-endian timecode bytes, the flags byte, then the
opaque payload. -/
def blockInto (b : Block) : TagData :=
  TagData.binary (write_vint b.track ++
    (timecodeHi b.value :: timecodeLo b.value :: blockFlags b :: b.payload))

/-- Outcome of a fallible coercion that may also abort: Rust's
`TryFrom` either returns `Ok`, returns `Err`, or panics (an out-of-bounds
index). -/
inductive DecodeResult (α : Type) where
  | ok (val : α)
  | err (e : WebmError)
  | panic
deriving DecidableEq

/-- Outcome of the infallible `Into` conversion: Rust's `Into` either
returns a value or panics (`expect` / `panic!` in the source, and
out-of-bounds indexing). -/
inductive EncodeResult where
  | ok (val : TagData)
  | panic
deriving DecidableEq

/-- `SimpleBlock::try_from(TagData)` from `src/matroska_spec/simple_block.rs`
lines 35-57.  Reads the leading vint, indexes the flags byte at
`track_size + 2` (a Rust panic when out of bounds), extracts keyframe from
bit 7 (0x80) and discardable from bit 0 (0x01), and delegates the remaining
fields to the Block coercion on the same tag data. -/
def simpleBlockTryFrom (value : TagData) : DecodeResult SimpleBlock :=
  match value with
  | TagData.binary data =>
    match read_vint data with
    | Except.error _ =>
      DecodeResult.err (WebmError.simpleBlockCoercionError msgSimpleBlockTrack)
    | Except.ok none =>
      DecodeResult.err (WebmError.simpleBlockCoercionError msgSimpleBlockTrack)
    | Except.ok (some (_track, track_size)) =>
      let position := track_size + 2
      match data[position]? with
      | none => DecodeResult.panic
      | some flags =>
        let keyframe := decide (flags &&& 0x80 = 0x80)
        let discardable := decide (flags &&& 0x01 = 0x01)
        match blockTryFrom (TagData.binary data) with
        | Except.error e => DecodeResult.err e
        | Except.ok block =>
          DecodeResult.ok { block := block, discardable := discardable, keyframe := keyframe }
  | _ => DecodeResult.err (WebmError.simpleBlockCoercionError msgSimpleBlockNonBinary)

/-- The body of `SimpleBlock::into(TagData)` from
`src/matroska_spec/simple_block.rs` lines 61-88, abstracted over the tag
data produced by the embedded Block's encoder: re-reads the leading vint
(`expect` panics on failure), mutates the flags byte at `track_size + 2`
in place (a Rust panic when out of bounds) by OR-ing bit 0 when discardable
and bit 7 when keyframe, and panics when the Block encoder did not produce a
binary tag. -/
def simpleBlockIntoAux (result : TagData) (discardable keyframe : Bool) : EncodeResult :=
  match result with
  | TagData.binary data =>
    match read_vint data with
    | Except.error _ => EncodeResult.panic
    | Except.ok none => EncodeResult.panic
    | Except.ok (some (_track, track_size)) =>
      let position := track_size + 2
      match data[position]? with
      | none => EncodeResult.panic
      | some flags =>
        let flags1 := if discardable then flags ||| 0x01 else flags
        let flags2 := if keyframe then flags1 ||| 0x80 else flags1
        EncodeResult.ok (TagData.binary (data.set position flags2))
  | _ => EncodeResult.panic

/-- `SimpleBlock::into(TagData)`: encode the embedded Block, then patch the
flags byte. -/
def simpleBlockInto (s : SimpleBlock) : EncodeResult :=
  simpleBlockIntoAux (blockInto s.block) s.discardable s.keyframe

/-- The two SimpleBlock-only flag bits that `SimpleBlock::into` ORs into the
flags byte: bit 0 when discardable, bit 7 when keyframe. -/
def sbBits (discardable keyframe : Bool) : Nat :=
  (if discardable then 0x01 else 0) ||| (if keyframe then 0x80 else 0)

/-- The byte buffer that encoding a SimpleBlock produces: the Block encoding
with the SimpleBlock bits OR-ed into the flags byte. -/
def encodedBytes (s : SimpleBlock) : List Nat :=
  write_vint s.block.track ++
    (timecodeHi s.block.value :: timecodeLo s.block.value ::
      (blockFlags s.block ||| sbBits s.discardable s.keyframe) :: s.block.payload)

/-- The buffer of the repository's own test `decode_encode_simple_block`. -/
def testBuffer : List Nat := [0x81, 0x00, 0x01, 0x9d, 0x00, 0x00, 0x00]

/-- The SimpleBlock value that the test buffer decodes to. -/
def testDecoded : SimpleBlock :=
  { block := { payload := [0, 0, 0], track := 1, value := 1,
               invisible := true, lacing := some BlockLacing.fixedSize },
    discardable := true, keyframe := true }

section Lemmas

variable {α : Type}

lemma drop_append_len : ∀ (xs ys : List α) (n : Nat),
    (xs ++ ys).drop (xs.length + n) = ys.drop n
  | [], _, _ => by simp
  | a :: l, ys, n => by
    rw [List.cons_append, List.length_cons]
    have h : l.length + 1 + n = (l.length + n) + 1 := by omega
    rw [h, List.drop_succ_cons, drop_append_len l ys n]

lemma length_bytesBE : ∀ (l n : Nat), (bytesBE l n).length = l
  | 0, _ => rfl
  | l + 1, n => by simp [bytesBE, length_bytesBE l]

lemma length_write_vint (t : Nat) : (write_vint t).length = vintLen t :=
  length_bytesBE _ _

lemma vintLengthOf₁ {b0 : Nat} (h1 : 128 ≤ b0) : vintLengthOf b0 = 1 := by
  unfold vintLengthOf; rw [if_pos h1]

lemma vintLengthOf₂ {b0 : Nat} (h1 : 64 ≤ b0) (h2 : b0 < 128) : vintLengthOf b0 = 2 := by
  unfold vintLengthOf; rw [if_neg (by omega), if_pos h1]

lemma vintLengthOf₃ {b0 : Nat} (h1 : 32 ≤ b0) (h2 : b0 < 64) : vintLengthOf b0 = 3 := by
  unfold vintLengthOf; rw [if_neg (by omega), if_neg (by omega), if_pos h1]

lemma vintLengthOf₄ {b0 : Nat} (h1 : 16 ≤ b0) (h2 : b0 < 32) : vintLengthOf b0 = 4 := by
  unfold vintLengthOf; rw [if_neg (by omega), if_neg (by omega), if_neg (by omega), if_pos h1]

lemma vintLengthOf₅ {b0 : Nat} (h1 : 8 ≤ b0) (h2 : b0 < 16) : vintLengthOf b0 = 5 := by
  unfold vintLengthOf; rw [if_neg (by omega), if_neg (by omega), if_neg (by omega), if_neg (by omega), if_pos h1]

lemma vintLengthOf₆ {b0 : Nat} (h1 : 4 ≤ b0) (h2 : b0 < 8) : vintLengthOf b0 = 6 := by
  unfold vintLengthOf; rw [if_neg (by omega), if_neg (by omega), if_neg (by omega), if_neg (by omega), if_neg (by omega), if_pos h1]

lemma vintLengthOf₇ {b0 : Nat} (h1 : 2 ≤ b0) (h2 : b0 < 4) : vintLengthOf b0 = 7 := by
  unfold vintLengthOf; rw [if_neg (by omega), if_neg (by omega), if_neg (by omega), if_neg (by omega), if_neg (by omega), if_neg (by omega), if_pos h1]

lemma vintLengthOf₈ {b0 : Nat} (h1 : 1 ≤ b0) (h2 : b0 < 2) : vintLengthOf b0 = 8 := by
  unfold vintLengthOf; rw [if_neg (by omega), if_neg (by omega), if_neg (by omega), if_neg (by omega), if_neg (by omega), if_neg (by omega), if_neg (by omega)]

lemma read_write_vint₁ (t : Nat) (h2 : t < 128) (rest : List Nat) :
    read_vint (write_vint t ++ rest) = Except.ok (some (t, vintLen t)) := by
  have hv : vintLen t = 1 := by
    unfold vintLen
    rw [if_pos (by omega)]
  have hb : write_vint t = [(t + 128)] := by
    unfold write_vint
    rw [hv]
    norm_num [bytesBE]
  rw [hv, hb]
  have hvl : vintLengthOf ((t + 128)) = 1 := vintLengthOf₁ (by omega)
  simp only [List.cons_append, List.nil_append, read_vint, hvl]
  rw [if_neg (by omega), if_neg (by omega)]
  rw [show (1 : Nat) - 1 = 0 from rfl, show (2 : Nat) ^ (8 - 1) = 128 from by norm_num]
  rw [List.take_zero]
  rw [List.foldl_nil]
  simp only [Except.ok.injEq, Option.some.injEq, Prod.mk.injEq]
  exact ⟨by omega, trivial⟩

lemma read_write_vint₂ (t : Nat) (h1 : 128 ≤ t) (h2 : t < 16384) (rest : List Nat) :
    read_vint (write_vint t ++ rest) = Except.ok (some (t, vintLen t)) := by
  have hv : vintLen t = 2 := by
    unfold vintLen
    rw [if_neg (by omega), if_pos (by omega)]
  have hb : write_vint t = [(t + 16384) / 256, (t + 16384) % 256] := by
    unfold write_vint
    rw [hv]
    norm_num [bytesBE]
  rw [hv, hb]
  have hvl : vintLengthOf ((t + 16384) / 256) = 2 := vintLengthOf₂ (by omega) (by omega)
  simp only [List.cons_append, List.nil_append, read_vint, hvl]
  rw [if_neg (by omega), if_neg (by simp only [List.length_cons]; omega)]
  rw [show (2 : Nat) - 1 = 1 from rfl, show (2 : Nat) ^ (8 - 2) = 64 from by norm_num]
  rw [List.take_succ_cons, List.take_zero]
  rw [List.foldl_cons, List.foldl_nil]
  simp only [Except.ok.injEq, Option.some.injEq, Prod.mk.injEq]
  exact ⟨by omega, trivial⟩

lemma read_write_vint₃ (t : Nat) (h1 : 16384 ≤ t) (h2 : t < 2097152) (rest : List Nat) :
    read_vint (write_vint t ++ rest) = Except.ok (some (t, vintLen t)) := by
  have hv : vintLen t = 3 := by
    unfold vintLen
    rw [if_neg (by omega), if_neg (by omega), if_pos (by omega)]
  have hb : write_vint t = [(t + 2097152) / 65536, (t + 2097152) % 65536 / 256, (t + 2097152) % 65536 % 256] := by
    unfold write_vint
    rw [hv]
    norm_num [bytesBE]
  rw [hv, hb]
  have hvl : vintLengthOf ((t + 2097152) / 65536) = 3 := vintLengthOf₃ (by omega) (by omega)
  simp only [List.cons_append, List.nil_append, read_vint, hvl]
  rw [if_neg (by omega), if_neg (by simp only [List.length_cons]; omega)]
  rw [show (3 : Nat) - 1 = 2 from rfl, show (2 : Nat) ^ (8 - 3) = 32 from by norm_num]
  rw [List.take_succ_cons, List.take_succ_cons, List.take_zero]
  rw [List.foldl_cons, List.foldl_cons, List.foldl_nil]
  simp only [Except.ok.injEq, Option.some.injEq, Prod.mk.injEq]
  exact ⟨by omega, trivial⟩

lemma read_write_vint₄ (t : Nat) (h1 : 2097152 ≤ t) (h2 : t < 268435456) (rest : List Nat) :
    read_vint (write_vint t ++ rest) = Except.ok (some (t, vintLen t)) := by
  have hv : vintLen t = 4 := by
    unfold vintLen
    rw [if_neg (by omega), if_neg (by omega), if_neg (by omega), if_pos (by omega)]
  have hb : write_vint t = [(t + 268435456) / 16777216, (t + 268435456) % 16777216 / 65536, (t + 268435456) % 16777216 % 65536 / 256, (t + 268435456) % 16777216 % 65536 % 256] := by
    unfold write_vint
    rw [hv]
    norm_num [bytesBE]
  rw [hv, hb]
  have hvl : vintLengthOf ((t + 268435456) / 16777216) = 4 := vintLengthOf₄ (by omega) (by omega)
  simp only [List.cons_append, List.nil_append, read_vint, hvl]
  rw [if_neg (by omega), if_neg (by simp only [List.length_cons]; omega)]
  rw [show (4 : Nat) - 1 = 3 from rfl, show (2 : Nat) ^ (8 - 4) = 16 from by norm_num]
  rw [List.take_succ_cons, List.take_succ_cons, List.take_succ_cons, List.take_zero]
  rw [List.foldl_cons, List.foldl_cons, List.foldl_cons, List.foldl_nil]
  simp only [Except.ok.injEq, Option.some.injEq, Prod.mk.injEq]
  exact ⟨by omega, trivial⟩

lemma read_write_vint₅ (t : Nat) (h1 : 268435456 ≤ t) (h2 : t < 34359738368) (rest : List Nat) :
    read_vint (write_vint t ++ rest) = Except.ok (some (t, vintLen t)) := by
  have hv : vintLen t = 5 := by
    unfold vintLen
    rw [if_neg (by omega), if_neg (by omega), if_neg (by omega), if_neg (by omega), if_pos (by omega)]
  have hb : write_vint t = [(t + 34359738368) / 4294967296, (t + 34359738368) % 4294967296 / 16777216, (t + 34359738368) % 4294967296 % 16777216 / 65536, (t + 34359738368) % 4294967296 % 16777216 % 65536 / 256, (t + 34359738368) % 4294967296 % 16777216 % 65536 % 256] := by
    unfold write_vint
    rw [hv]
    norm_num [bytesBE]
  rw [hv, hb]
  have hvl : vintLengthOf ((t + 34359738368) / 4294967296) = 5 := vintLengthOf₅ (by omega) (by omega)
  simp only [List.cons_append, List.nil_append, read_vint, hvl]
  rw [if_neg (by omega), if_neg (by simp only [List.length_cons]; omega)]
  rw [show (5 : Nat) - 1 = 4 from rfl, show (2 : Nat) ^ (8 - 5) = 8 from by norm_num]
  rw [List.take_succ_cons, List.take_succ_cons, List.take_succ_cons, List.take_succ_cons, List.take_zero]
  rw [List.foldl_cons, List.foldl_cons, List.foldl_cons, List.foldl_cons, List.foldl_nil]
  simp only [Except.ok.injEq, Option.some.injEq, Prod.mk.injEq]
  exact ⟨by omega, trivial⟩

lemma read_write_vint₆ (t : Nat) (h1 : 34359738368 ≤ t) (h2 : t < 4398046511104) (rest : List Nat) :
    read_vint (write_vint t ++ rest) = Except.ok (some (t, vintLen t)) := by
  have hv : vintLen t = 6 := by
    unfold vintLen
    rw [if_neg (by omega), if_neg (by omega), if_neg (by omega), if_neg (by omega), if_neg (by omega), if_pos (by omega)]
  have hb : write_vint t = [(t + 4398046511104) / 1099511627776, (t + 4398046511104) % 1099511627776 / 4294967296, (t + 4398046511104) % 1099511627776 % 4294967296 / 16777216, (t + 4398046511104) % 1099511627776 % 4294967296 % 16777216 / 65536, (t + 4398046511104) % 1099511627776 % 4294967296 % 16777216 % 65536 / 256, (t + 4398046511104) % 1099511627776 % 4294967296 % 16777216 % 65536 % 256] := by
    unfold write_vint
    rw [hv]
    norm_num [bytesBE]
  rw [hv, hb]
  have hvl : vintLengthOf ((t + 4398046511104) / 1099511627776) = 6 := vintLengthOf₆ (by omega) (by omega)
  simp only [List.cons_append, List.nil_append, read_vint, hvl]
  rw [if_neg (by omega), if_neg (by simp only [List.length_cons]; omega)]
  rw [show (6 : Nat) - 1 = 5 from rfl, show (2 : Nat) ^ (8 - 6) = 4 from by norm_num]
  rw [List.take_succ_cons, List.take_succ_cons, List.take_succ_cons, List.take_succ_cons, List.take_succ_cons, List.take_zero]
  rw [List.foldl_cons, List.foldl_cons, List.foldl_cons, List.foldl_cons, List.foldl_cons, List.foldl_nil]
  simp only [Except.ok.injEq, Option.some.injEq, Prod.mk.injEq]
  exact ⟨by omega, trivial⟩

lemma read_write_vint₇ (t : Nat) (h1 : 4398046511104 ≤ t) (h2 : t < 562949953421312) (rest : List Nat) :
    read_vint (write_vint t ++ rest) = Except.ok (some (t, vintLen t)) := by
  have hv : vintLen t = 7 := by
    unfold vintLen
    rw [if_neg (by omega), if_neg (by omega), if_neg (by omega), if_neg (by omega), if_neg (by omega), if_neg (by omega), if_pos (by omega)]
  have hb : write_vint t = [(t + 562949953421312) / 281474976710656, (t + 562949953421312) % 281474976710656 / 1099511627776, (t + 562949953421312) % 281474976710656 % 1099511627776 / 4294967296, (t + 562949953421312) % 281474976710656 % 1099511627776 % 4294967296 / 16777216, (t + 562949953421312) % 281474976710656 % 1099511627776 % 4294967296 % 16777216 / 65536, (t + 562949953421312) % 281474976710656 % 1099511627776 % 4294967296 % 16777216 % 65536 / 256, (t + 562949953421312) % 281474976710656 % 1099511627776 % 4294967296 % 16777216 % 65536 % 256] := by
    unfold write_vint
    rw [hv]
    norm_num [bytesBE]
  rw [hv, hb]
  have hvl : vintLengthOf ((t + 562949953421312) / 281474976710656) = 7 := vintLengthOf₇ (by omega) (by omega)
  simp only [List.cons_append, List.nil_append, read_vint, hvl]
  rw [if_neg (by omega), if_neg (by simp only [List.length_cons]; omega)]
  rw [show (7 : Nat) - 1 = 6 from rfl, show (2 : Nat) ^ (8 - 7) = 2 from by norm_num]
  rw [List.take_succ_cons, List.take_succ_cons, List.take_succ_cons, List.take_succ_cons, List.take_succ_cons, List.take_succ_cons, List.take_zero]
  rw [List.foldl_cons, List.foldl_cons, List.foldl_cons, List.foldl_cons, List.foldl_cons, List.foldl_cons, List.foldl_nil]
  simp only [Except.ok.injEq, Option.some.injEq, Prod.mk.injEq]
  exact ⟨by omega, trivial⟩

lemma read_write_vint₈ (t : Nat) (h1 : 562949953421312 ≤ t) (h2 : t < 72057594037927936) (rest : List Nat) :
    read_vint (write_vint t ++ rest) = Except.ok (some (t, vintLen t)) := by
  have hv : vintLen t = 8 := by
    unfold vintLen
    rw [if_neg (by omega), if_neg (by omega), if_neg (by omega), if_neg (by omega), if_neg (by omega), if_neg (by omega), if_neg (by omega)]
  have hb : write_vint t = [(t + 72057594037927936) / 72057594037927936, (t + 72057594037927936) % 72057594037927936 / 281474976710656, (t + 72057594037927936) % 72057594037927936 % 281474976710656 / 1099511627776, (t + 72057594037927936) % 72057594037927936 % 281474976710656 % 1099511627776 / 4294967296, (t + 72057594037927936) % 72057594037927936 % 281474976710656 % 1099511627776 % 4294967296 / 16777216, (t + 72057594037927936) % 72057594037927936 % 281474976710656 % 1099511627776 % 4294967296 % 16777216 / 65536, (t + 72057594037927936) % 72057594037927936 % 281474976710656 % 1099511627776 % 4294967296 % 16777216 % 65536 / 256, (t + 72057594037927936) % 72057594037927936 % 281474976710656 % 1099511627776 % 4294967296 % 16777216 % 65536 % 256] := by
    unfold write_vint
    rw [hv]
    norm_num [bytesBE]
  rw [hv, hb]
  have hvl : vintLengthOf ((t + 72057594037927936) / 72057594037927936) = 8 := vintLengthOf₈ (by omega) (by omega)
  simp only [List.cons_append, List.nil_append, read_vint, hvl]
  rw [if_neg (by omega), if_neg (by simp only [List.length_cons]; omega)]
  rw [show (8 : Nat) - 1 = 7 from rfl, show (2 : Nat) ^ (8 - 8) = 1 from by norm_num]
  rw [List.take_succ_cons, List.take_succ_cons, List.take_succ_cons, List.take_succ_cons, List.take_succ_cons, List.take_succ_cons, List.take_succ_cons, List.take_zero]
  rw [List.foldl_cons, List.foldl_cons, List.foldl_cons, List.foldl_cons, List.foldl_cons, List.foldl_cons, List.foldl_cons, List.foldl_nil]
  simp only [Except.ok.injEq, Option.some.injEq, Prod.mk.injEq]
  exact ⟨by omega, trivial⟩

lemma read_write_vint (t : Nat) (h : t < 72057594037927936) (rest : List Nat) :
    read_vint (write_vint t ++ rest) = Except.ok (some (t, vintLen t)) := by
  rcases Nat.lt_or_ge t 128 with c1 | c1
  · exact read_write_vint₁ t c1 rest
  rcases Nat.lt_or_ge t 16384 with c2 | c2
  · exact read_write_vint₂ t c1 c2 rest
  rcases Nat.lt_or_ge t 2097152 with c3 | c3
  · exact read_write_vint₃ t c2 c3 rest
  rcases Nat.lt_or_ge t 268435456 with c4 | c4
  · exact read_write_vint₄ t c3 c4 rest
  rcases Nat.lt_or_ge t 34359738368 with c5 | c5
  · exact read_write_vint₅ t c4 c5 rest
  rcases Nat.lt_or_ge t 4398046511104 with c6 | c6
  · exact read_write_vint₆ t c5 c6 rest
  rcases Nat.lt_or_ge t 562949953421312 with c7 | c7
  · exact read_write_vint₇ t c6 c7 rest
  exact read_write_vint₈ t c7 h rest

lemma encW_get0 (t : Nat) (r : List Nat) :
    (write_vint t ++ r)[vintLen t]? = r[0]? := by
  rw [List.getElem?_append_right (length_write_vint t).le]
  have h : vintLen t - (write_vint t).length = 0 := by rw [length_write_vint]; omega
  rw [h]

lemma encW_get (t : Nat) (r : List Nat) (i : Nat) :
    (write_vint t ++ r)[vintLen t + i]? = r[i]? := by
  rw [List.getElem?_append_right (by rw [length_write_vint]; omega)]
  have h : vintLen t + i - (write_vint t).length = i := by rw [length_write_vint]; omega
  rw [h]

lemma encW_set (t : Nat) (r : List Nat) (x : Nat) (i : Nat) :
    (write_vint t ++ r).set (vintLen t + i) x = write_vint t ++ r.set i x := by
  rw [List.set_append_right _ _ (by rw [length_write_vint]; omega)]
  have h : vintLen t + i - (write_vint t).length = i := by rw [length_write_vint]; omega
  rw [h]

lemma encW_drop (t : Nat) (r : List Nat) (i : Nat) :
    (write_vint t ++ r).drop (vintLen t + i) = r.drop i := by
  have h : vintLen t + i = (write_vint t).length + i := by rw [length_write_vint]
  rw [h, drop_append_len]

lemma flagsPatch (f : Nat) (d k : Bool) :
    (if k then (if d then f ||| 1 else f) ||| 128 else (if d then f ||| 1 else f))
      = f ||| sbBits d k := by
  cases d <;> cases k <;> simp [sbBits, Nat.lor_assoc]

lemma flags_facts (inv : Bool) (lac : Option BlockLacing) (d k : Bool) :
    decide ((((if inv then 8 else 0) ||| lacBits lac) ||| sbBits d k) &&& 128 = 128) = k ∧
    decide ((((if inv then 8 else 0) ||| lacBits lac) ||| sbBits d k) &&& 1 = 1) = d ∧
    decide ((((if inv then 8 else 0) ||| lacBits lac) ||| sbBits d k) &&& 8 = 8) = inv ∧
    (if (((if inv then 8 else 0) ||| lacBits lac) ||| sbBits d k) &&& 6 = 6 then
       some BlockLacing.ebml
     else if (((if inv then 8 else 0) ||| lacBits lac) ||| sbBits d k) &&& 6 = 4 then
       some BlockLacing.fixedSize
     else if (((if inv then 8 else 0) ||| lacBits lac) ||| sbBits d k) &&& 6 = 2 then
       some BlockLacing.xiph
     else none) = lac := by
  rcases lac with _ | x
  · cases inv <;> cases d <;> cases k <;> decide
  · cases x <;> cases inv <;> cases d <;> cases k <;> decide

lemma timecode_roundtrip (v : Int) (h1 : -32768 ≤ v) (h2 : v < 32768) :
    (if timecodeHi v * 256 + timecodeLo v < 32768
     then ((timecodeHi v * 256 + timecodeLo v : Nat) : Int)
     else ((timecodeHi v * 256 + timecodeLo v : Nat) : Int) - 65536) = v := by
  unfold timecodeHi timecodeLo
  split <;> omega

lemma encode_eq (s : SimpleBlock) (ht : s.block.track < 72057594037927936) :
    simpleBlockInto s = EncodeResult.ok (TagData.binary (encodedBytes s)) := by
  simp only [simpleBlockInto, simpleBlockIntoAux, blockInto]
  simp only [read_write_vint _ ht]
  simp only [encW_get]
  simp only [List.getElem?_cons_succ, List.getElem?_cons_zero]
  simp only [encW_set]
  simp only [List.set]
  rw [flagsPatch]
  simp only [encodedBytes]

lemma decode_encoded (p : List Nat) (t : Nat) (v : Int) (inv : Bool) (lac : Option BlockLacing)
    (d k : Bool) (ht : t < 72057594037927936) (h1 : -32768 ≤ v) (h2 : v < 32768) :
    simpleBlockTryFrom (TagData.binary (encodedBytes ⟨⟨p, t, v, inv, lac⟩, d, k⟩)) =
      DecodeResult.ok ⟨⟨p, t, v, inv, lac⟩, d, k⟩ := by
  obtain ⟨f1, f2, f3, f4⟩ := flags_facts inv lac d k
  simp only [encodedBytes, blockFlags, simpleBlockTryFrom, blockTryFrom]
  simp only [read_write_vint t ht]
  simp only [encW_get, encW_get0, encW_drop]
  simp only [List.getElem?_cons_succ, List.getElem?_cons_zero, List.drop_succ_cons,
    List.drop_zero]
  rw [timecode_roundtrip v h1 h2]
  rw [f1, f2, f3, f4]

lemma decide_land_pow (n i : Nat) : decide (n &&& 2 ^ i = 2 ^ i) = n.testBit i := by
  rw [Nat.and_two_pow]
  cases h : n.testBit i
  · simp [(Nat.two_pow_pos i).ne]
  · simp

lemma decide_land_128 (n : Nat) : decide (n &&& 128 = 128) = n.testBit 7 := by
  have h := decide_land_pow n 7
  norm_num at h
  exact h

lemma decide_land_1 (n : Nat) : decide (n &&& 1 = 1) = n.testBit 0 := by
  have h := decide_land_pow n 0
  simp only [pow_zero] at h
  exact h

lemma track_lit (t : Nat) (h : t < 2 ^ 56) : t < 72057594037927936 := by
  norm_num at h
  exact h

end Lemmas

/-- Claim C1 (counterexample): decoding the buffer
`[0x81,0x00,0x01,0x9d,0x00,0x00,0x00]` succeeds and yields exactly
`testDecoded`, but re-encoding `testDecoded` does not reproduce the original
buffer: the flags byte comes back as `0x8d`, because the Block encoder writes
every flag bit other than invisible and lacing as zero, so the undefined
bit 4 (0x10) of `0x9d` is dropped. -/
theorem c1_boundary_counterexample :
    simpleBlockTryFrom (TagData.binary testBuffer) = DecodeResult.ok testDecoded ∧
    simpleBlockInto testDecoded ≠ EncodeResult.ok (TagData.binary testBuffer) := by
  decide

/-- Claim C1 (amended): the buffer `[0x81,0x00,0x01,0x9d,0x00,0x00,0x00]`
decodes to a SimpleBlock with track 1, timecode value 1, invisible set,
fixed-size lacing, keyframe set and discardable set, and re-encoding that
SimpleBlock yields `[0x81,0x00,0x01,0x8d,0x00,0x00,0x00]` — identical except
for the flags byte, whose undefined bit 4 is not preserved. -/
theorem c1_boundary_case :
    ∃ s, simpleBlockTryFrom (TagData.binary testBuffer) = DecodeResult.ok s ∧
      s.block.track = 1 ∧ s.block.value = 1 ∧ s.block.invisible = true ∧
      s.block.lacing = some BlockLacing.fixedSize ∧ s.keyframe = true ∧
      s.discardable = true ∧
      simpleBlockInto s =
        EncodeResult.ok (TagData.binary [0x81, 0x00, 0x01, 0x8d, 0x00, 0x00, 0x00]) := by
  exact ⟨testDecoded, by decide, rfl, rfl, rfl, rfl, rfl, rfl, by decide⟩

/-- Claim C3: for every SimpleBlock whose fields are in valid ranges (track
encodable as a vint, timecode within signed 16 bits), encoding succeeds and
decoding the encoded buffer returns the very same SimpleBlock, equal in every
field. -/
theorem c3_roundtrip_identity (s : SimpleBlock)
    (ht : s.block.track < 2 ^ 56) (h1 : -32768 ≤ s.block.value)
    (h2 : s.block.value < 32768) :
    ∃ b, simpleBlockInto s = EncodeResult.ok (TagData.binary b) ∧
      simpleBlockTryFrom (TagData.binary b) = DecodeResult.ok s := by
  obtain ⟨⟨pp, tt, vv, ii, ll⟩, dd, kk⟩ := s
  have ht2 := track_lit _ ht
  exact ⟨encodedBytes ⟨⟨pp, tt, vv, ii, ll⟩, dd, kk⟩, encode_eq _ ht2,
    decode_encoded pp tt vv ii ll dd kk ht2 h1 h2⟩

/-- Claim C3 witness: instantiated at the decoded form of the test buffer. -/
theorem c3_witness :
    ∃ b, simpleBlockInto testDecoded = EncodeResult.ok (TagData.binary b) ∧
      simpleBlockTryFrom (TagData.binary b) = DecodeResult.ok testDecoded :=
  c3_roundtrip_identity testDecoded (by decide) (by decide) (by decide)

/-- Claim C6: contrary to the claim, a truncated buffer does not always
produce a coercion error: whenever the leading vint itself is readable but
the buffer ends before the flags byte at offset `track_size + 2`, the
indexing `data[position]` in `SimpleBlock::try_from` is out of bounds and the
code panics instead of returning an error.  The three shortest truncations of
the test buffer all panic. -/
theorem c6_truncated_input_panics :
    simpleBlockTryFrom (TagData.binary [0x81]) = DecodeResult.panic ∧
    simpleBlockTryFrom (TagData.binary [0x81, 0x00]) = DecodeResult.panic ∧
    simpleBlockTryFrom (TagData.binary [0x81, 0x00, 0x01]) = DecodeResult.panic := by
  decide

/-- Claim C7: a TagData value of any non-binary variant is rejected by
`SimpleBlock::try_from` with the SimpleBlockCoercionError carrying the
type-mismatch message, without any attempt at reinterpretation. -/
theorem c7_type_mismatch (td : TagData) (h : ∀ b, td ≠ TagData.binary b) :
    simpleBlockTryFrom td =
      DecodeResult.err (WebmError.simpleBlockCoercionError msgSimpleBlockNonBinary) := by
  cases td with
  | binary b => exact absurd rfl (h b)
  | unsignedInt v => rfl
  | integer v => rfl
  | utf8 v => rfl

/-- Claim C7 witness: the unsigned-integer representation is rejected. -/
theorem c7_witness :
    simpleBlockTryFrom (TagData.unsignedInt 42) =
      DecodeResult.err (WebmError.simpleBlockCoercionError msgSimpleBlockNonBinary) :=
  c7_type_mismatch (TagData.unsignedInt 42) (fun _ h => TagData.noConfusion h)

/-- Claim C9: when both discardable and keyframe are false, SimpleBlock
encoding returns exactly the embedded Block encoding — the flags byte is left
untouched. -/
theorem c9_no_extra_flags_noop (s : SimpleBlock) (hd : s.discardable = false)
    (hk : s.keyframe = false) (ht : s.block.track < 2 ^ 56) :
    simpleBlockInto s = EncodeResult.ok (blockInto s.block) := by
  rw [encode_eq s (track_lit _ ht)]
  unfold encodedBytes blockInto
  rw [hd, hk]
  simp [sbBits]

/-- Claim C9 witness: a SimpleBlock with both extra flags clear encodes to
its Block encoding unchanged. -/
theorem c9_witness :
    simpleBlockInto ⟨⟨[0, 0, 0], 1, 1, true, some BlockLacing.fixedSize⟩, false, false⟩ =
      EncodeResult.ok (blockInto ⟨[0, 0, 0], 1, 1, true, some BlockLacing.fixedSize⟩) :=
  c9_no_extra_flags_noop ⟨⟨[0, 0, 0], 1, 1, true, some BlockLacing.fixedSize⟩, false, false⟩
    rfl rfl (by decide)

/-- Claim C2: every buffer produced by the encoder (on a SimpleBlock with
in-range fields) round-trips byte-exactly: decoding it succeeds, and
re-encoding the decoded value reproduces the buffer exactly, with no padding
and no reordering. -/
theorem c2_byte_exact_roundtrip (s : SimpleBlock) (b : List Nat)
    (ht : s.block.track < 2 ^ 56) (h1 : -32768 ≤ s.block.value)
    (h2 : s.block.value < 32768)
    (henc : simpleBlockInto s = EncodeResult.ok (TagData.binary b)) :
    ∃ s2, simpleBlockTryFrom (TagData.binary b) = DecodeResult.ok s2 ∧
      simpleBlockInto s2 = EncodeResult.ok (TagData.binary b) := by
  obtain ⟨⟨pp, tt, vv, ii, ll⟩, dd, kk⟩ := s
  have ht2 := track_lit _ ht
  have he := encode_eq ⟨⟨pp, tt, vv, ii, ll⟩, dd, kk⟩ ht2
  have hbe : b = encodedBytes ⟨⟨pp, tt, vv, ii, ll⟩, dd, kk⟩ := by
    have hh := henc.symm.trans he
    simp only [EncodeResult.ok.injEq, TagData.binary.injEq] at hh
    exact hh
  subst hbe
  exact ⟨⟨⟨pp, tt, vv, ii, ll⟩, dd, kk⟩,
    decode_encoded pp tt vv ii ll dd kk ht2 h1 h2, he⟩

/-- Claim C2 witness: instantiated at the encoder output of `testDecoded`. -/
theorem c2_witness :
    ∃ s2, simpleBlockTryFrom (TagData.binary [0x81, 0x00, 0x01, 0x8d, 0x00, 0x00, 0x00]) =
        DecodeResult.ok s2 ∧
      simpleBlockInto s2 =
        EncodeResult.ok (TagData.binary [0x81, 0x00, 0x01, 0x8d, 0x00, 0x00, 0x00]) :=
  c2_byte_exact_roundtrip testDecoded [0x81, 0x00, 0x01, 0x8d, 0x00, 0x00, 0x00]
    (by decide) (by decide) (by decide) (by decide)

/-- Claim C4: whenever SimpleBlock decoding succeeds, its keyframe field is
exactly bit 7 of the flags byte at offset `track_size + 2` (where
`track_size` is the byte length of the leading vint), and its discardable
field is exactly bit 0 of that same byte. -/
theorem c4_keyframe_discardable_bits (data : List Nat) (s : SimpleBlock) (t ts : Nat)
    (hok : simpleBlockTryFrom (TagData.binary data) = DecodeResult.ok s)
    (hvint : read_vint data = Except.ok (some (t, ts))) :
    ∃ flags, data[ts + 2]? = some flags ∧
      s.keyframe = flags.testBit 7 ∧ s.discardable = flags.testBit 0 := by
  simp only [simpleBlockTryFrom, hvint] at hok
  rcases hget : data[ts + 2]? with _ | flags
  · rw [hget] at hok
    exact DecodeResult.noConfusion hok
  · rw [hget] at hok
    cases hb : blockTryFrom (TagData.binary data) with
    | error e =>
      rw [hb] at hok
      exact DecodeResult.noConfusion hok
    | ok blk =>
      rw [hb] at hok
      injection hok with h
      subst h
      exact ⟨flags, rfl, decide_land_128 flags, decide_land_1 flags⟩

/-- Claim C4 witness: instantiated at the test buffer, whose flags byte 0x9d
has both bit 7 and bit 0 set. -/
theorem c4_witness :
    ∃ flags, testBuffer[3]? = some flags ∧
      testDecoded.keyframe = flags.testBit 7 ∧
      testDecoded.discardable = flags.testBit 0 :=
  c4_keyframe_discardable_bits testBuffer testDecoded 1 1 (by decide) rfl

/-- Claim C5: SimpleBlock encoding takes the embedded Block encoding and
modifies only the flags byte at offset `track_size + 2`, OR-ing in bit 0 when
discardable and bit 7 when keyframe; every other byte is unchanged, the
length is unchanged, and no bit of the original flags byte is ever
cleared. -/
theorem c5_flag_isolation (s : SimpleBlock) (d : List Nat) (t ts flags : Nat)
    (hblock : blockInto s.block = TagData.binary d)
    (hvint : read_vint d = Except.ok (some (t, ts)))
    (hflags : d[ts + 2]? = some flags) :
    simpleBlockInto s = EncodeResult.ok (TagData.binary
        (d.set (ts + 2) (flags ||| sbBits s.discardable s.keyframe))) ∧
    (∀ i, i ≠ ts + 2 →
      (d.set (ts + 2) (flags ||| sbBits s.discardable s.keyframe))[i]? = d[i]?) ∧
    (d.set (ts + 2) (flags ||| sbBits s.discardable s.keyframe)).length = d.length ∧
    (∀ j, flags.testBit j = true →
      (flags ||| sbBits s.discardable s.keyframe).testBit j = true) := by
  refine ⟨?_, ?_, ?_, ?_⟩
  · unfold simpleBlockInto
    rw [hblock]
    simp only [simpleBlockIntoAux, hvint, hflags]
    rw [flagsPatch]
  · intro i hi
    exact List.getElem?_set_ne (Ne.symm hi)
  · simp
  · intro j hj
    simp [Nat.testBit_or, hj]

/-- Claim C5 witness: instantiated at a one-byte-track SimpleBlock with both
extra flags set over an all-clear Block flags byte. -/
theorem c5_witness :
    simpleBlockInto ⟨⟨[], 1, 1, false, none⟩, true, true⟩ = EncodeResult.ok (TagData.binary
        ([129, 0, 1, 0].set 3 (0 ||| sbBits true true))) ∧
    (∀ i, i ≠ 3 → ([129, 0, 1, 0].set 3 (0 ||| sbBits true true))[i]? = [129, 0, 1, 0][i]?) ∧
    ([129, 0, 1, 0].set 3 (0 ||| sbBits true true)).length = [129, 0, 1, 0].length ∧
    (∀ j, Nat.testBit 0 j = true → Nat.testBit (0 ||| sbBits true true) j = true) :=
  c5_flag_isolation ⟨⟨[], 1, 1, false, none⟩, true, true⟩ [129, 0, 1, 0] 1 1 0
    (by decide) rfl rfl

/-- Claim C8: the failure branches of `SimpleBlock::into` are panics, never
recoverable error returns: a non-binary Block encoding panics, an unreadable
leading vint panics, and an unaddressable flags byte panics; and these
branches are unreachable whenever the Block encoder output is correct
(binary, leading with a readable vint, and long enough to reach the flags
byte), which the modelled Block encoder satisfies for every vint-encodable
track. -/
theorem c8_encode_failure_modes :
    (∀ (td : TagData) (disc kf : Bool), (∀ b, td ≠ TagData.binary b) →
      simpleBlockIntoAux td disc kf = EncodeResult.panic) ∧
    (∀ (data : List Nat) (disc kf : Bool),
      read_vint data = Except.error () ∨ read_vint data = Except.ok none →
      simpleBlockIntoAux (TagData.binary data) disc kf = EncodeResult.panic) ∧
    (∀ (data : List Nat) (disc kf : Bool) (t ts : Nat),
      read_vint data = Except.ok (some (t, ts)) → ts + 2 < data.length →
      ∃ out, simpleBlockIntoAux (TagData.binary data) disc kf =
        EncodeResult.ok (TagData.binary out)) ∧
    (∀ b : Block, b.track < 2 ^ 56 →
      ∃ data, blockInto b = TagData.binary data ∧
        read_vint data = Except.ok (some (b.track, vintLen b.track)) ∧
        vintLen b.track + 2 < data.length) := by
  refine ⟨?_, ?_, ?_, ?_⟩
  · intro td disc kf h
    cases td with
    | binary b => exact absurd rfl (h b)
    | unsignedInt v => rfl
    | integer v => rfl
    | utf8 v => rfl
  · intro data disc kf h
    rcases h with h | h <;> simp only [simpleBlockIntoAux, h]
  · intro data disc kf t ts hvint hlen
    have hget : data[ts + 2]? = some data[ts + 2] := List.getElem?_eq_getElem hlen
    simp only [simpleBlockIntoAux, hvint, hget]
    exact ⟨_, rfl⟩
  · intro b hb
    refine ⟨write_vint b.track ++
      (timecodeHi b.value :: timecodeLo b.value :: blockFlags b :: b.payload), rfl,
      read_write_vint _ (track_lit _ hb) _, ?_⟩
    simp only [List.length_append, List.length_cons, length_write_vint]
    omega

/-- Claim C8 witness: a non-binary tag panics, an empty buffer panics, a
well-formed Block encoding is patched without panic, and the modelled Block
encoder meets the correctness conditions. -/
theorem c8_witness :
    simpleBlockIntoAux (TagData.unsignedInt 7) false false = EncodeResult.panic ∧
    simpleBlockIntoAux (TagData.binary []) false false = EncodeResult.panic ∧
    (∃ out, simpleBlockIntoAux (TagData.binary [0x81, 0x00, 0x01, 0x00]) true true =
      EncodeResult.ok (TagData.binary out)) ∧
    (∃ data, blockInto ⟨[], 1, 1, false, none⟩ = TagData.binary data ∧
      read_vint data = Except.ok (some (1, vintLen 1)) ∧ vintLen 1 + 2 < data.length) :=
  ⟨c8_encode_failure_modes.1 (TagData.unsignedInt 7) false false
      (fun _ h => TagData.noConfusion h),
    c8_encode_failure_modes.2.1 [] false false (Or.inr rfl),
    c8_encode_failure_modes.2.2.1 [0x81, 0x00, 0x01, 0x00] true true 1 1 rfl
      (by decide),
    c8_encode_failure_modes.2.2.2 ⟨[], 1, 1, false, none⟩ (by decide)⟩

/-- Claim C10: the embedded block of a successful SimpleBlock decode is
exactly the result of the Block decoder on the same tag data, and SimpleBlock
decoding succeeds exactly when the leading vint is readable, the flags byte
at offset `track_size + 2` is within the buffer, and the Block decoder
succeeds. -/
theorem c10_refinement (data : List Nat) :
    (∀ s, simpleBlockTryFrom (TagData.binary data) = DecodeResult.ok s →
      blockTryFrom (TagData.binary data) = Except.ok s.block) ∧
    ((∃ s, simpleBlockTryFrom (TagData.binary data) = DecodeResult.ok s) ↔
      ∃ t ts, read_vint data = Except.ok (some (t, ts)) ∧ ts + 2 < data.length ∧
        ∃ b, blockTryFrom (TagData.binary data) = Except.ok b) := by
  cases hr : read_vint data with
  | error e =>
    refine ⟨?_, ?_, ?_⟩
    · intro s hok
      simp only [simpleBlockTryFrom, hr] at hok
      exact DecodeResult.noConfusion hok
    · rintro ⟨s, hok⟩
      simp only [simpleBlockTryFrom, hr] at hok
      exact DecodeResult.noConfusion hok
    · rintro ⟨t, ts, hv, _, _⟩
      exact Except.noConfusion hv
  | ok o =>
    cases o with
    | none =>
      refine ⟨?_, ?_, ?_⟩
      · intro s hok
        simp only [simpleBlockTryFrom, hr] at hok
        exact DecodeResult.noConfusion hok
      · rintro ⟨s, hok⟩
        simp only [simpleBlockTryFrom, hr] at hok
        exact DecodeResult.noConfusion hok
      · rintro ⟨t, ts, hv, _, _⟩
        simp at hv
    | some pr =>
      obtain ⟨t, ts⟩ := pr
      cases hget : data[ts + 2]? with
      | none =>
        have hlen : data.length ≤ ts + 2 := List.getElem?_eq_none_iff.mp hget
        refine ⟨?_, ?_, ?_⟩
        · intro s hok
          simp only [simpleBlockTryFrom, hr, hget] at hok
          exact DecodeResult.noConfusion hok
        · rintro ⟨s, hok⟩
          simp only [simpleBlockTryFrom, hr, hget] at hok
          exact DecodeResult.noConfusion hok
        · rintro ⟨t2, ts2, hv, hlt, _⟩
          simp only [Except.ok.injEq, Option.some.injEq, Prod.mk.injEq] at hv
          omega
      | some flags =>
        obtain ⟨hlen, -⟩ := List.getElem?_eq_some_iff.mp hget
        cases hb : blockTryFrom (TagData.binary data) with
        | error e =>
          refine ⟨?_, ?_, ?_⟩
          · intro s hok
            simp only [simpleBlockTryFrom, hr, hget, hb] at hok
            exact DecodeResult.noConfusion hok
          · rintro ⟨s, hok⟩
            simp only [simpleBlockTryFrom, hr, hget, hb] at hok
            exact DecodeResult.noConfusion hok
          · rintro ⟨t2, ts2, hv, hlt, b, hbb⟩
            exact Except.noConfusion hbb
        | ok blk =>
          refine ⟨?_, ?_, ?_⟩
          · intro s hok
            simp only [simpleBlockTryFrom, hr, hget, hb] at hok
            injection hok with h
            subst h
            rfl
          · intro _
            exact ⟨t, ts, rfl, hlen, blk, rfl⟩
          · intro _
            refine ⟨⟨blk, decide (flags &&& 1 = 1), decide (flags &&& 128 = 128)⟩, ?_⟩
            simp only [simpleBlockTryFrom, hr, hget, hb]

/-- Claim C10 witness: instantiated at the test buffer. -/
theorem c10_witness :
    blockTryFrom (TagData.binary testBuffer) = Except.ok testDecoded.block ∧
    (∃ t ts, read_vint testBuffer = Except.ok (some (t, ts)) ∧
      ts + 2 < testBuffer.length ∧
      ∃ b, blockTryFrom (TagData.binary testBuffer) = Except.ok b) :=
  ⟨(c10_refinement testBuffer).1 testDecoded (by decide),
    (c10_refinement testBuffer).2.mp ⟨testDecoded, by decide⟩⟩

end Webm
